import Mathlib

/-
  Verification development for the AIS-Viewer server pipeline.

  The definitions below are a shallow embedding of the TypeScript server:
  - the ingest client's position-report parser (aisstream-client.ts),
  - the Redis-backed in-memory store and its atomic Lua update script
    (redis-scripts.ts), modelled with explicit deadlines for TTLs,
  - the WebSocket server's subscription handling and dirty-tile dispatcher
    (websocket.ts),
  - the reconnect backoff state machine (aisstream-client.ts),
  - the batch synchronizer's SCAN loop (batch-sync service).

  JavaScript `Set` and `Map` preserve insertion order; they are modelled as
  lists without duplicate elements / keys, with JS-faithful add, delete and
  set operations. Numbers are modelled as `Rat` (every numeric literal that
  matters in the claims is exactly representable in IEEE double, so this is
  faithful), with an explicit NaN constructor where the code can produce NaN.
-/

/-! ### Association lists: model of JS `Map` (insertion-ordered) -/

/-- Lookup of the value stored under key `k` (first matching entry). -/
def alookup {K V : Type} [DecidableEq K] : List (K × V) → K → Option V
  | [], _ => none
  | (k', v) :: t, k => if k' = k then some v else alookup t k

/-- JS `Map.set`: replace the value in place if the key exists, else append. -/
def aset {K V : Type} [DecidableEq K] : List (K × V) → K → V → List (K × V)
  | [], k, v => [(k, v)]
  | (k', v') :: t, k, v => if k' = k then (k, v) :: t else (k', v') :: aset t k v

/-- JS `Map.delete`: remove the entry stored under `k`. -/
def aremove {K V : Type} [DecidableEq K] (l : List (K × V)) (k : K) : List (K × V) :=
  l.filter (fun p => p.1 ≠ k)

theorem alookup_aset_self {K V : Type} [DecidableEq K] (l : List (K × V)) (k : K) (v : V) :
    alookup (aset l k v) k = some v := by
  induction l with
  | nil => simp [aset, alookup]
  | cons p t ih =>
    by_cases h : p.1 = k
    · simp [aset, h, alookup]
    · simp [aset, h, alookup, ih]

theorem alookup_aset_ne {K V : Type} [DecidableEq K] (l : List (K × V)) (k k' : K) (v : V)
    (h : k ≠ k') : alookup (aset l k v) k' = alookup l k' := by
  induction l with
  | nil => simp [aset, alookup, h]
  | cons p t ih =>
    by_cases hp : p.1 = k
    · simp [aset, hp, alookup, h]
    · simp [aset, hp, alookup, ih]

theorem alookup_aremove {K V : Type} [DecidableEq K] (l : List (K × V)) (k k' : K) :
    alookup (aremove l k) k' = if k = k' then none else alookup l k' := by
  induction l with
  | nil => simp [aremove, alookup]
  | cons p t ih =>
    by_cases hp : p.1 = k
    · have hstep : aremove (p :: t) k = aremove t k := by
        simp [aremove, List.filter, hp]
      rw [hstep, ih]
      by_cases hk : k = k'
      · simp [hk]
      · have hpk' : ¬ p.1 = k' := by rw [hp]; exact hk
        simp [hk, alookup, hpk']
    · have hstep : aremove (p :: t) k = p :: aremove t k := by
        simp [aremove, List.filter, hp]
      rw [hstep]
      by_cases hpk' : p.1 = k'
      · have hk : k ≠ k' := fun e => hp (hpk'.trans e.symm)
        simp [alookup, hpk', hk]
      · simp [alookup, hpk', ih]

/-! ### JS `Set` model: insertion-ordered list without duplicates -/

/-- JS `Set.add`: append unless already present. -/
def jsSetAdd {α : Type} [DecidableEq α] (l : List α) (a : α) : List α :=
  if a ∈ l then l else l ++ [a]

theorem mem_jsSetAdd {α : Type} [DecidableEq α] (l : List α) (a b : α) :
    b ∈ jsSetAdd l a ↔ b ∈ l ∨ b = a := by
  unfold jsSetAdd
  by_cases h : a ∈ l
  · simp only [if_pos h]
    constructor
    · exact Or.inl
    · rintro (hb | rfl)
      · exact hb
      · exact h
  · simp [if_neg h]

theorem nodup_jsSetAdd {α : Type} [DecidableEq α] (l : List α) (a : α) (h : l.Nodup) :
    (jsSetAdd l a).Nodup := by
  unfold jsSetAdd
  by_cases hm : a ∈ l
  · simpa [hm]
  · simp only [if_neg hm]
    simpa [List.nodup_append] using ⟨h, fun hc => hm hc⟩

theorem jsSetAdd_ne_nil {α : Type} [DecidableEq α] (l : List α) (a : α) :
    jsSetAdd l a ≠ [] := by
  unfold jsSetAdd
  by_cases hm : a ∈ l
  · simp only [if_pos hm]
    rintro rfl
    simp at hm
  · simp [if_neg hm]

/-! ### Ingest parser (aisstream-client.ts, `parsePositionReport`) -/

/-- Wire fields of `Message.PositionReport` used by the parser. Every field is
optional on the wire. -/
structure PositionReport where
  Cog : Option Rat
  Latitude : Option Rat
  Longitude : Option Rat
  Sog : Option Rat
  TrueHeading : Option Int
  UserID : Option Nat
deriving DecidableEq, Repr

/-- Wire fields of the sibling `MetaData` block used by the parser. -/
structure MetaData where
  MMSI : Option Nat
  latitude : Option Rat
  longitude : Option Rat
  time_utc : Option String
deriving DecidableEq, Repr

/-- An inbound AISStream message, reduced to the parts the parser reads
(`message.Message?.PositionReport` and `message.MetaData`). -/
structure AISMessage where
  positionReport : Option PositionReport
  metaData : Option MetaData
deriving DecidableEq, Repr

/-- A parsed vessel position (`VesselPosition` in types/ais.ts); also the
typed content of the Redis vessel hash written by the update script. -/
structure VesselRec where
  mmsi : Nat
  lat : Rat
  lon : Rat
  cog : Option Rat
  sog : Option Rat
  heading : Option Int
  timestamp : String
  tile : String
deriving DecidableEq, Repr

/-- Function `isValidCoordinates` from utils/tile.ts. -/
def isValidCoordinates (lat lon : Rat) : Bool :=
  decide ((-90 : Rat) ≤ lat) && decide (lat ≤ 90) &&
    decide ((-180 : Rat) ≤ lon) && decide (lon ≤ 180)

/-- Function `parsePositionReport` from aisstream-client.ts. `tileOf` abstracts
`latLonToTileKey lat lon config.tileZoom`; `nowIso` abstracts
`new Date().toISOString()`. JS `a || b` (used for the MMSI and the timestamp)
falls through on falsy values, so `0` and `""` also take the fallback;
`a ?? b` (used for lat/lon) falls through only when `a` is undefined. -/
def parsePositionReport (tileOf : Rat → Rat → String) (nowIso : String)
    (msg : AISMessage) : Option VesselRec :=
  match msg.positionReport with
  | none => none
  | some posReport =>
    let metaMMSI : Option Nat := msg.metaData.bind MetaData.MMSI
    let mmsi : Option Nat :=
      match posReport.UserID with
      | some u => if u = 0 then metaMMSI else some u
      | none => metaMMSI
    match mmsi with
    | none => none
    | some m =>
      if m = 0 then none
      else
        match posReport.Latitude <|> msg.metaData.bind MetaData.latitude,
              posReport.Longitude <|> msg.metaData.bind MetaData.longitude with
        | some lat, some lon =>
          if !(isValidCoordinates lat lon) then none
          else
            let tile := tileOf lat lon
            let timestamp :=
              match msg.metaData.bind MetaData.time_utc with
              | some s => if s = "" then nowIso else s
              | none => nowIso
            some { mmsi := m, lat := lat, lon := lon, cog := posReport.Cog,
                   sog := posReport.Sog, heading := posReport.TrueHeading,
                   timestamp := timestamp, tile := tile }
        | _, _ => none

/-- Concrete wire message with `TrueHeading = 511` at (0, 0). -/
def msg511 : AISMessage :=
  { positionReport := some
      { Cog := none, Latitude := some 0, Longitude := some 0, Sog := none,
        TrueHeading := some 511, UserID := some 111 },
    metaData := none }

/-- C1 counterexample: an accepted position report with wire TrueHeading 511
is stored with `heading = some 511`, not `heading = none` — the parser never
maps 511 to null. -/
theorem c1_heading511_counterexample :
    (parsePositionReport (fun _ _ => "12/2048/2048") "2024-01-01T00:00:00Z"
        msg511).map VesselRec.heading = some (some 511) ∧
    (parsePositionReport (fun _ _ => "12/2048/2048") "2024-01-01T00:00:00Z"
        msg511).map VesselRec.heading ≠ some none := by
  constructor <;> decide

/-- C1 amended: the parser stores the wire TrueHeading unchanged — every
accepted vessel record carries exactly the wire value (including 511), and
heading is null exactly when `TrueHeading` is absent from the report. -/
theorem c1_heading_passthrough (tileOf : Rat → Rat → String) (nowIso : String)
    (msg : AISMessage) (v : VesselRec)
    (h : parsePositionReport tileOf nowIso msg = some v) :
    v.heading = msg.positionReport.bind PositionReport.TrueHeading := by
  unfold parsePositionReport at h
  rcases hm : msg.positionReport with _ | posReport
  · rw [hm] at h; exact absurd h (by simp)
  · rw [hm] at h
    simp only at h
    split at h
    · exact absurd h (by simp)
    · split at h
      · exact absurd h (by simp)
      · split at h
        · split at h
          · exact absurd h (by simp)
          · simp only [Option.some.injEq] at h
            subst h
            simp
        · exact absurd h (by simp)

/-- C1 amended, witness at the concrete 511 message. -/
theorem c1_heading_passthrough_witness :
    VesselRec.heading
        { mmsi := 111, lat := 0, lon := 0, cog := none, sog := none,
          heading := some 511, timestamp := "2024-01-01T00:00:00Z",
          tile := "12/2048/2048" } =
      msg511.positionReport.bind PositionReport.TrueHeading :=
  c1_heading_passthrough (fun _ _ => "12/2048/2048") "2024-01-01T00:00:00Z"
    msg511 _ (by decide)

/-! ### In-memory store (Redis) with explicit TTL deadlines

A key is live at time `now` iff `now < deadline`; an expired key behaves as
absent for every command, exactly as Redis expiry does. All commands of one
script invocation run at a single instant `now` (the script is atomic). -/

structure StoreState where
  vessels : List (Nat × (VesselRec × Nat))
  tileSets : List (String × (List Nat × Nat))
deriving DecidableEq, Repr

def emptyStore : StoreState := { vessels := [], tileSets := [] }

/-- HGETALL of a vessel hash (expiry-checked); `none` models both an absent
key and an expired one. -/
def readVessel (st : StoreState) (now : Nat) (m : Nat) : Option VesselRec :=
  match alookup st.vessels m with
  | some (r, dl) => if now < dl then some r else none
  | none => none

/-- SMEMBERS of a tile set (expiry-checked). -/
def smembersTile (st : StoreState) (now : Nat) (t : String) : List Nat :=
  match alookup st.tileSets t with
  | some (ms, dl) => if now < dl then ms else []
  | none => []

/-- SREM of one member followed by the script's SCARD / DEL cleanup: the
entry is evicted when it becomes empty. SREM of an absent or expired key is
a no-op. -/
def sremTile (st : StoreState) (now : Nat) (t : String) (m : Nat) : StoreState :=
  match alookup st.tileSets t with
  | some (ms, dl) =>
    if now < dl then
      if ms.erase m = [] then { st with tileSets := aremove st.tileSets t }
      else { st with tileSets := aset st.tileSets t (ms.erase m, dl) }
    else st
  | none => st

/-- SADD of one member followed by EXPIRE ttl (the update script always pairs
the two); an absent or expired key starts from the empty set. -/
def saddExpireTile (st : StoreState) (now ttl : Nat) (t : String) (m : Nat) : StoreState :=
  let ms :=
    match alookup st.tileSets t with
    | some (ms, dl) => if now < dl then ms else []
    | none => []
  { st with tileSets := aset st.tileSets t (jsSetAdd ms m, now + ttl) }

/-- HGET of the `tile` field of a vessel hash (expiry-checked). -/
def hgetVesselTile (st : StoreState) (now : Nat) (m : Nat) : Option String :=
  match alookup st.vessels m with
  | some (r, dl) => if now < dl then some r.tile else none
  | none => none

/-- The `UPDATE_VESSEL_SCRIPT` Lua script (redis-scripts.ts), command by command:
HGET vessel tile; HSET all eight fields; EXPIRE vessel ttl; if the old tile
exists and differs, SREM from it and DEL it when emptied; SADD into the new
tile set; EXPIRE it; return `(oldTile, newTile)`. -/
def putVessel (st : StoreState) (now ttl : Nat) (rec : VesselRec) :
    StoreState × (Option String × String) :=
  let oldTile : Option String := hgetVesselTile st now rec.mmsi
  let st1 := { st with vessels := aset st.vessels rec.mmsi (rec, now + ttl) }
  let st2 :=
    match oldTile with
    | some o => if o ≠ rec.tile then sremTile st1 now o rec.mmsi else st1
    | none => st1
  let st3 := saddExpireTile st2 now ttl rec.tile rec.mmsi
  (st3, (oldTile, rec.tile))

/-- The five steps of `putVessel` as the specification words them (§4.B):
read the old tile (null if absent, where a record exists iff it is live);
overwrite the record and refresh its TTL; if the old tile is non-null and
differs, remove the MMSI from the old tile set and evict it when it becomes
empty; insert the MMSI into the new tile set and refresh that set's TTL to
VESSEL_TTL; return the pair. Written from the spec, to be compared with the
script embedding `putVessel`. -/
def specPutVessel (st : StoreState) (now ttl : Nat) (rec : VesselRec) :
    StoreState × (Option String × String) :=
  let oldTile := (readVessel st now rec.mmsi).map VesselRec.tile
  let vessels1 := aset st.vessels rec.mmsi (rec, now + ttl)
  let tiles1 :=
    match oldTile with
    | some o =>
      if o = rec.tile then st.tileSets
      else
        match alookup st.tileSets o with
        | some (ms, dl) =>
          if now < dl then
            if ms.erase rec.mmsi = [] then aremove st.tileSets o
            else aset st.tileSets o (ms.erase rec.mmsi, dl)
          else st.tileSets
        | none => st.tileSets
    | none => st.tileSets
  let cur :=
    match alookup tiles1 rec.tile with
    | some (ms, dl) => if now < dl then ms else []
    | none => []
  let tiles2 := aset tiles1 rec.tile (jsSetAdd cur rec.mmsi, now + ttl)
  ({ vessels := vessels1, tileSets := tiles2 }, (oldTile, rec.tile))

theorem hgetVesselTile_eq_read (st : StoreState) (now : Nat) (m : Nat) :
    hgetVesselTile st now m = (readVessel st now m).map VesselRec.tile := by
  unfold hgetVesselTile readVessel
  rcases alookup st.vessels m with _ | ⟨r, dl⟩
  · rfl
  · by_cases h : now < dl <;> simp [h]

/-- C2: the atomic vessel-update script computes exactly the five steps the
specification prescribes for `putVessel`, including the returned pair. -/
theorem c2_putVessel_refines_spec (st : StoreState) (now ttl : Nat) (rec : VesselRec) :
    putVessel st now ttl rec = specPutVessel st now ttl rec := by
  unfold putVessel specPutVessel
  rw [hgetVesselTile_eq_read]
  rcases (readVessel st now rec.mmsi).map VesselRec.tile with _ | o
  · simp [saddExpireTile]
  · by_cases ho : o = rec.tile
    · simp [ho, saddExpireTile]
    · simp only [ne_eq, ho, not_false_iff, if_true, if_neg ho, sremTile]
      rcases hts : alookup st.tileSets o with _ | ⟨ms, dl⟩
      · simp [hts, saddExpireTile]
      · simp only [hts]
        by_cases hdl : now < dl
        · by_cases he : ms.erase rec.mmsi = []
          · simp [hdl, he, saddExpireTile]
          · simp [hdl, he, saddExpireTile]
        · simp [hdl, saddExpireTile]

/-! ### Timed traces of `putVessel` calls (for the TTL-expiry claims) -/

theorem saddExpireTile_vessels (st : StoreState) (now ttl : Nat) (t : String) (m : Nat) :
    (saddExpireTile st now ttl t m).vessels = st.vessels := rfl

theorem sremTile_vessels (st : StoreState) (now : Nat) (t : String) (m : Nat) :
    (sremTile st now t m).vessels = st.vessels := by
  unfold sremTile
  repeat first
  | rfl
  | split

theorem putVessel_vessels (st : StoreState) (now ttl : Nat) (rec : VesselRec) :
    (putVessel st now ttl rec).1.vessels = aset st.vessels rec.mmsi (rec, now + ttl) := by
  rcases hg : hgetVesselTile st now rec.mmsi with _ | o
  · simp only [putVessel, hg, saddExpireTile_vessels]
  · by_cases ho : o = rec.tile <;>
      simp [putVessel, hg, ho, saddExpireTile_vessels, sremTile_vessels]

theorem readVessel_putVessel (st : StoreState) (t ttl now : Nat) (rec : VesselRec) (m : Nat) :
    readVessel (putVessel st t ttl rec).1 now m =
      if rec.mmsi = m then (if now < t + ttl then some rec else none)
      else readVessel st now m := by
  unfold readVessel
  rw [putVessel_vessels]
  by_cases h : rec.mmsi = m
  · subst h
    rw [alookup_aset_self]
    simp
  · rw [alookup_aset_ne _ _ _ _ h]
    simp [h]

theorem sremTile_deadline (st : StoreState) (t : Nat) (o : String) (m : Nat) (T : String)
    (now : Nat) (hst : ∀ ms dl, alookup st.tileSets T = some (ms, dl) → dl ≤ now) :
    ∀ ms dl, alookup (sremTile st t o m).tileSets T = some (ms, dl) → dl ≤ now := by
  intro ms dl h
  unfold sremTile at h
  rcases hts : alookup st.tileSets o with _ | ⟨ms0, dl0⟩
  · rw [hts] at h
    exact hst _ _ h
  · rw [hts] at h
    by_cases hdl : t < dl0
    · simp only [if_pos hdl] at h
      by_cases he : ms0.erase m = []
      · simp only [if_pos he] at h
        rw [alookup_aremove] at h
        by_cases hoT : o = T
        · simp [hoT] at h
        · simp only [if_neg hoT] at h
          exact hst _ _ h
      · simp only [if_neg he] at h
        by_cases hoT : o = T
        · subst hoT
          rw [alookup_aset_self] at h
          simp only [Option.some.injEq, Prod.mk.injEq] at h
          obtain ⟨-, hd⟩ := h
          subst hd
          exact hst _ _ hts
        · rw [alookup_aset_ne _ _ _ _ hoT] at h
          exact hst _ _ h
    · simp only [if_neg hdl] at h
      exact hst _ _ h

theorem putVessel_tile_deadline (st : StoreState) (t ttl now : Nat) (rec : VesselRec)
    (T : String) (hrec : rec.tile = T → t + ttl ≤ now)
    (hst : ∀ ms dl, alookup st.tileSets T = some (ms, dl) → dl ≤ now) :
    ∀ ms dl, alookup (putVessel st t ttl rec).1.tileSets T = some (ms, dl) → dl ≤ now := by
  intro ms dl h
  simp only [putVessel, saddExpireTile] at h
  by_cases hT : rec.tile = T
  · rw [hT, alookup_aset_self] at h
    simp only [Option.some.injEq, Prod.mk.injEq] at h
    obtain ⟨-, hd⟩ := h
    subst hd
    exact hrec hT
  · rw [alookup_aset_ne _ _ _ _ hT] at h
    rcases hg : hgetVesselTile st t rec.mmsi with _ | o
    · rw [hg] at h
      exact hst _ _ h
    · rw [hg] at h
      by_cases ho : o = rec.tile
      · simp only [ne_eq, ho, not_true_eq_false, if_false, ite_false] at h
        exact hst _ _ h
      · simp only [ne_eq, ho, not_false_iff, if_true, ite_true] at h
        exact sremTile_deadline
          { st with vessels := aset st.vessels rec.mmsi (rec, t + ttl) }
          t o rec.mmsi T now hst ms dl h

/-- A timed sequence of ingest updates applied to a starting store: each
element is one accepted position report handed to the update script at the
given instant. -/
def applyTraceFrom (ttl : Nat) (st : StoreState) (evs : List (Nat × VesselRec)) : StoreState :=
  evs.foldl (fun s e => (putVessel s e.1 ttl e.2).1) st

def applyTrace (ttl : Nat) (evs : List (Nat × VesselRec)) : StoreState :=
  applyTraceFrom ttl emptyStore evs

theorem trace_expiry (ttl now m : Nat) (T : String) :
    ∀ (evs : List (Nat × VesselRec)) (st : StoreState),
      (∀ e ∈ evs, (e.2).mmsi = m → e.1 + ttl ≤ now) →
      (∀ e ∈ evs, (e.2).tile = T → e.1 + ttl ≤ now) →
      readVessel st now m = none →
      (∀ ms dl, alookup st.tileSets T = some (ms, dl) → dl ≤ now) →
      readVessel (applyTraceFrom ttl st evs) now m = none ∧
        (∀ ms dl, alookup (applyTraceFrom ttl st evs).tileSets T = some (ms, dl) → dl ≤ now) := by
  intro evs
  induction evs with
  | nil => exact fun st _ _ hv hts => ⟨hv, hts⟩
  | cons e evs ih =>
    intro st hm hT hv hts
    refine ih (putVessel st e.1 ttl e.2).1
      (fun e' he' => hm e' (List.mem_cons_of_mem _ he'))
      (fun e' he' => hT e' (List.mem_cons_of_mem _ he')) ?_ ?_
    · rw [readVessel_putVessel]
      by_cases hmm : (e.2).mmsi = m
      · have hle : e.1 + ttl ≤ now := hm e (List.mem_cons_self _ _) hmm
        have : ¬ now < e.1 + ttl := by omega
        simp [hmm, this]
      · simpa [hmm] using hv
    · exact putVessel_tile_deadline st e.1 ttl now e.2 T
        (fun ht => hT e (List.mem_cons_self _ _) ht) hts

/-- The Hong Kong tile of the spec's end-to-end scenarios. -/
def tileHK : String := "12/3413/1789"

def recA : VesselRec :=
  { mmsi := 111, lat := 22, lon := 114, cog := none, sog := none, heading := none,
    timestamp := "2024-01-01T00:00:00Z", tile := tileHK }

def recB : VesselRec := { recA with mmsi := 222 }

/-- Vessel 111 stops updating at t = 0 while vessel 222, in the same tile,
keeps updating (t = 0 and t = 60); VESSEL_TTL is 120 s. -/
def c3trace : List (Nat × VesselRec) := [(0, recA), (0, recB), (60, recB)]

def c3state : StoreState := applyTrace 120 c3trace

/-- C3 counterexample: at t = 121, more than VESSEL_TTL = 120 s after vessel
111's last update, its record is absent, yet its MMSI is still a member of
the (live) tile set, because vessel 222's update at t = 60 refreshed that
set's TTL and nothing ever removes 111 from it. -/
theorem c3_stale_membership_counterexample :
    readVessel c3state 121 111 = none ∧ 111 ∈ smembersTile c3state 121 tileHK := by
  constructor <;> decide

/-- C3 amended: after VESSEL_TTL seconds without an update for an MMSI its
record reads as absent; and a tile set is empty once VESSEL_TTL has passed
without an update for any vessel located in that tile. If other vessels in
the tile keep updating, the stale MMSI can remain in the tile set (see the
counterexample); reads of its record still yield absent. -/
theorem c3_expiry_amended (ttl now m : Nat) (T : String) (evs : List (Nat × VesselRec))
    (hm : ∀ e ∈ evs, (e.2).mmsi = m → e.1 + ttl ≤ now)
    (hT : ∀ e ∈ evs, (e.2).tile = T → e.1 + ttl ≤ now) :
    readVessel (applyTrace ttl evs) now m = none ∧
      smembersTile (applyTrace ttl evs) now T = [] := by
  have h := trace_expiry ttl now m T evs emptyStore hm hT
    (by simp [readVessel, emptyStore, alookup])
    (by intro ms dl hx; simp [emptyStore, alookup] at hx)
  refine ⟨h.1, ?_⟩
  unfold smembersTile
  rcases hts : alookup (applyTrace ttl evs).tileSets T with _ | ⟨ms, dl⟩
  · rfl
  · have hdl := h.2 ms dl hts
    have : ¬ now < dl := by omega
    simp [this]

/-- C3 amended, witness: on the concrete trace, vessel 111 reads as absent at
t = 121 and a tile nobody updated has an empty tile set. -/
theorem c3_expiry_amended_witness :
    readVessel (applyTrace 120 c3trace) 121 111 = none ∧
      smembersTile (applyTrace 120 c3trace) 121 "12/0/0" = [] :=
  c3_expiry_amended 120 121 111 "12/0/0" c3trace (by decide) (by decide)

/-! ### WebSocket server (part: VesselWebSocketServer) -/

/-- A JS number as produced by parseInt / parseFloat: a value or NaN. -/
inductive JsNum where
  | num (q : Rat)
  | nan
deriving DecidableEq, Repr

/-- One element pushed onto `vessels` by the per-result loop of
`sendInitialTileData` / `flushDirtyTiles`. parseInt / parseFloat results are
`JsNum` (NaN when the hash field is absent); `cog`, `sog`, `heading` are
null exactly when the stored string is literally "null"; `timestamp` and
`tile` are undefined (`none`) when the hash is missing. -/
structure OutVessel where
  mmsi : JsNum
  lat : JsNum
  lon : JsNum
  cog : Option JsNum
  sog : Option JsNum
  heading : Option JsNum
  timestamp : Option String
  tile : Option String
deriving DecidableEq, Repr

/-- Body of `results.forEach(([err, data]) => ...)`: ioredis HGETALL of a
missing (or expired) key yields the empty object `{}` (modelled `none`),
which is truthy and of type "object", so the guard
`!err && data && typeof data === "object"` admits it and an entry whose
numeric fields are NaN (undefined fields fed to parseInt / parseFloat) is
pushed. For a present hash the stored strings parse back to the stored
values. -/
def readPipelineEntry : Option VesselRec → OutVessel
  | some r =>
    { mmsi := .num r.mmsi, lat := .num r.lat, lon := .num r.lon,
      cog := match r.cog with | some q => some (.num q) | none => none,
      sog := match r.sog with | some q => some (.num q) | none => none,
      heading := match r.heading with | some z => some (.num (z : Rat)) | none => none,
      timestamp := some r.timestamp, tile := some r.tile }
  | none =>
    { mmsi := .nan, lat := .nan, lon := .nan, cog := some .nan, sog := some .nan,
      heading := some .nan, timestamp := none, tile := none }

/-- The vessel list built for one tile: SMEMBERS, then pipelined HGETALL of
each member, one pushed entry per member. This loop appears verbatim in both
`flushDirtyTiles` and `sendInitialTileData`. -/
def vesselsForTile (st : StoreState) (now : Nat) (t : String) : List OutVessel :=
  (smembersTile st now t).map (fun m => readPipelineEntry (readVessel st now m))

/-- Server→client messages. -/
inductive OutMsg where
  | connected (clientId : String) (message : String)
  | subscribed (tiles : List String) (message : String)
  | unsubscribed (tiles : List String) (message : String)
  | vesselUpdate (tile : String) (vessels : List OutVessel)
  | pong
deriving DecidableEq, Repr

/-- State of `VesselWebSocketServer`: connected clients (id ↦ the session's
`subscribedTiles` set), the tile subscription index (tile ↦ client ids) and
the dispatcher's dirty-tile set. -/
structure WSState where
  clients : List (String × List String)
  tileSubscriptions : List (String × List String)
  dirtyTiles : List String
deriving DecidableEq, Repr

/-- Lookup `tileSubscriptions.get(T)`, defaulting to the empty set. -/
def subsOf (ws : WSState) (T : String) : List String :=
  (alookup ws.tileSubscriptions T).getD []

/-- One iteration of the `tiles.forEach` loop of `handleSubscribe`:
`client.subscribedTiles.add(tile)`, then add the client id to the
(created on demand) subscriber set of the tile. While the connection is
open the session object is the one stored in `clients`. -/
def subscribeStep (ws : WSState) (cid : String) (t : String) : WSState :=
  { ws with
    clients := aset ws.clients cid (jsSetAdd ((alookup ws.clients cid).getD []) t),
    tileSubscriptions := aset ws.tileSubscriptions t (jsSetAdd (subsOf ws t) cid) }

/-- Method `sendInitialTileData`: for each requested tile, SMEMBERS; an empty tile
set is skipped; otherwise the pipelined vessel list is built and sent to
this client when non-empty. The result is the list of `sendToClient`
calls. -/
def sendInitialTileData (st : StoreState) (now : Nat) (cid : String)
    (tiles : List String) : List (String × OutMsg) :=
  tiles.flatMap (fun t =>
    let mmsiList := smembersTile st now t
    if mmsiList = [] then []
    else
      let vessels := mmsiList.map (fun m => readPipelineEntry (readVessel st now m))
      if vessels.length > 0 then [(cid, OutMsg.vesselUpdate t vessels)] else [])

/-- Method `handleSubscribe`: update both sides of the subscription relation for
every listed tile, acknowledge, then send the initial snapshots. -/
def handleSubscribe (st : StoreState) (now : Nat) (ws : WSState) (cid : String)
    (tiles : List String) : WSState × List (String × OutMsg) :=
  let ws1 := tiles.foldl (fun w t => subscribeStep w cid t) ws
  (ws1, (cid, OutMsg.subscribed tiles
      ("Subscribed to " ++ toString tiles.length ++ " tile(s)")) ::
    sendInitialTileData st now cid tiles)

/-- Remove a client id from one tile's subscriber set, deleting the index
entry when it becomes empty (shared by `handleUnsubscribe` and
`handleDisconnect`). -/
def removeSubscriber (ws : WSState) (t : String) (cid : String) : WSState :=
  match alookup ws.tileSubscriptions t with
  | some subscr =>
    if subscr.erase cid = [] then
      { ws with tileSubscriptions := aremove ws.tileSubscriptions t }
    else
      { ws with tileSubscriptions := aset ws.tileSubscriptions t (subscr.erase cid) }
  | none => ws

/-- One iteration of the `tiles.forEach` loop of `handleUnsubscribe`:
`client.subscribedTiles.delete(tile)`, then mirror removal from the index. -/
def unsubscribeStep (ws : WSState) (cid : String) (t : String) : WSState :=
  removeSubscriber
    { ws with clients := aset ws.clients cid (((alookup ws.clients cid).getD []).erase t) }
    t cid

/-- Method `handleUnsubscribe`. -/
def handleUnsubscribe (ws : WSState) (cid : String) (tiles : List String) :
    WSState × List (String × OutMsg) :=
  (tiles.foldl (fun w t => unsubscribeStep w cid t) ws,
    [(cid, OutMsg.unsubscribed tiles
      ("Unsubscribed from " ++ toString tiles.length ++ " tile(s)"))])

/-- Method `handleDisconnect`: remove the client from every tile subscription it
holds (evicting emptied index entries), then drop the client. -/
def handleDisconnect (ws : WSState) (cid : String) : WSState :=
  match alookup ws.clients cid with
  | some subscribedTiles =>
    let ws1 := subscribedTiles.foldl (fun w t => removeSubscriber w t cid) ws
    { ws1 with clients := aremove ws1.clients cid }
  | none => ws

/-- The `vesselUpdate` / `dirtyTiles` listeners: mark a tile dirty. -/
def markDirty (ws : WSState) (t : String) : WSState :=
  { ws with dirtyTiles := jsSetAdd ws.dirtyTiles t }

/-- One tile of the dispatcher flush: skip when there is no subscriber;
otherwise SMEMBERS + pipelined HGETALL, and one `vessel_update` (empty
vessel list allowed) handed to `sendToClient` for every subscriber found in
the client map. -/
def flushTileSends (st : StoreState) (now : Nat) (ws : WSState) (t : String) :
    List (String × OutMsg) :=
  let subscribers := subsOf ws t
  if subscribers = [] then []
  else
    let mmsiList := smembersTile st now t
    if mmsiList = [] then
      subscribers.filterMap (fun cid =>
        if (alookup ws.clients cid).isSome then some (cid, OutMsg.vesselUpdate t []) else none)
    else
      let vessels := mmsiList.map (fun m => readPipelineEntry (readVessel st now m))
      subscribers.filterMap (fun cid =>
        if (alookup ws.clients cid).isSome then some (cid, OutMsg.vesselUpdate t vessels) else none)

/-- Process the drained tiles in order; `fails t` models the Redis read for
tile `t` throwing, which lands in the `catch` and abandons the rest of the
tick. -/
def processDirtyTiles (st : StoreState) (now : Nat) (ws : WSState)
    (fails : String → Bool) : List String → List (String × OutMsg)
  | [] => []
  | t :: ts =>
    if fails t then []
    else flushTileSends st now ws t ++ processDirtyTiles st now ws fails ts

/-- Method `flushDirtyTiles`: return early when nothing is dirty; otherwise drain
and clear the dirty-tile set before any store read, then process the drained
tiles. The cleared set is not restored when a read throws. -/
def flushDirtyTilesWith (st : StoreState) (now : Nat) (ws : WSState)
    (fails : String → Bool) : WSState × List (String × OutMsg) :=
  if ws.dirtyTiles = [] then (ws, [])
  else
    ({ ws with dirtyTiles := [] }, processDirtyTiles st now ws fails ws.dirtyTiles)

/-- The failure-free dispatcher flush tick. -/
def flushDirtyTiles (st : StoreState) (now : Nat) (ws : WSState) :
    WSState × List (String × OutMsg) :=
  flushDirtyTilesWith st now ws (fun _ => false)

/-- True when the message is a `vessel_update` for tile `T`. -/
def isUpdateForTile (T : String) : OutMsg → Bool
  | OutMsg.vesselUpdate t _ => decide (t = T)
  | _ => false

/-- A WebSocket state with one client subscribed to the Hong Kong tile,
which is dirty. -/
def wsOneSub : WSState :=
  { clients := [("c1", [tileHK])],
    tileSubscriptions := [(tileHK, ["c1"])],
    dirtyTiles := [tileHK] }

/-- C4: an MMSI listed in a tile set whose vessel record is missing is NOT
dropped: at t = 121 on the trace of `c3state`, vessel 111's record is
absent while 111 is still in the tile set, and both the dispatcher flush and
the subscribe-time snapshot emit a malformed entry whose numeric fields are
NaN (ioredis HGETALL of the missing key yields `{}`, which passes the
guard), instead of a 1-element list containing only vessel 222. -/
theorem c4_missing_record_not_dropped :
    readVessel c3state 121 111 = none ∧
    111 ∈ smembersTile c3state 121 tileHK ∧
    (vesselsForTile c3state 121 tileHK).map OutVessel.mmsi =
      [JsNum.nan, JsNum.num 222] ∧
    (flushDirtyTiles c3state 121 wsOneSub).2 =
      [("c1", OutMsg.vesselUpdate tileHK (vesselsForTile c3state 121 tileHK))] ∧
    sendInitialTileData c3state 121 "c1" [tileHK] =
      [("c1", OutMsg.vesselUpdate tileHK (vesselsForTile c3state 121 tileHK))] := by
  refine ⟨by decide, by decide, by decide, by decide, by decide⟩

/-- All messages produced for one tile are `vessel_update`s of that tile,
addressed to its subscribers, carrying the tile's pipelined vessel list. -/
theorem mem_flushTileSends (st : StoreState) (now : Nat) (ws : WSState) (t : String)
    (p : String × OutMsg) (h : p ∈ flushTileSends st now ws t) :
    p.1 ∈ subsOf ws t ∧ p.2 = OutMsg.vesselUpdate t (vesselsForTile st now t) := by
  unfold flushTileSends at h
  by_cases hs : subsOf ws t = []
  · simp [hs] at h
  · simp only [if_neg hs] at h
    by_cases hm : smembersTile st now t = []
    · simp only [if_pos hm] at h
      obtain ⟨c, hc, hfc⟩ := List.mem_filterMap.mp h
      by_cases hcs : (alookup ws.clients c).isSome
      · simp only [if_pos hcs, Option.some.injEq] at hfc
        subst hfc
        exact ⟨hc, by simp [vesselsForTile, hm]⟩
      · simp [hcs] at hfc
    · simp only [if_neg hm] at h
      obtain ⟨c, hc, hfc⟩ := List.mem_filterMap.mp h
      by_cases hcs : (alookup ws.clients c).isSome
      · simp only [if_pos hcs, Option.some.injEq] at hfc
        subst hfc
        exact ⟨hc, by simp [vesselsForTile]⟩
      · simp [hcs] at hfc

/-- True when the send is a `vessel_update` for a tile whose read fails. -/
def sendHitsFailed (fails : String → Bool) (p : String × OutMsg) : Bool :=
  match p.2 with
  | OutMsg.vesselUpdate t _ => fails t
  | _ => false

theorem processDirtyTiles_filter_failed (st : StoreState) (now : Nat) (ws : WSState)
    (fails : String → Bool) (ts : List String) :
    (processDirtyTiles st now ws fails ts).filter (sendHitsFailed fails) = [] := by
  induction ts with
  | nil => rfl
  | cons t ts ih =>
    unfold processDirtyTiles
    by_cases hf : fails t
    · simp [hf]
    · rw [if_neg hf, List.filter_append, ih, List.append_nil, List.filter_eq_nil_iff]
      intro p hp
      have hshape := (mem_flushTileSends st now ws t p hp).2
      simp [sendHitsFailed, hshape, hf]

/-- C10: the dispatcher flush clears the dirty-tile set before any store
read and never restores it — after a tick in which some tile's read threw,
the dirty set is empty, an immediately following tick sends nothing, and the
tick that failed emitted no `vessel_update` for any tile whose read fails
(those pending updates are lost until the tile is marked dirty again). -/
theorem c10_flush_error_not_restored (st : StoreState) (now : Nat) (ws : WSState)
    (fails : String → Bool) :
    (flushDirtyTilesWith st now ws fails).1.dirtyTiles = [] ∧
    (flushDirtyTilesWith st now (flushDirtyTilesWith st now ws fails).1 fails).2 = [] ∧
    (flushDirtyTilesWith st now ws fails).2.filter (sendHitsFailed fails) = [] := by
  have hempty : ∀ w : WSState, w.dirtyTiles = [] →
      flushDirtyTilesWith st now w fails = (w, []) := by
    intro w hw
    unfold flushDirtyTilesWith
    simp [hw]
  have h1 : (flushDirtyTilesWith st now ws fails).1.dirtyTiles = [] := by
    unfold flushDirtyTilesWith
    by_cases hd : ws.dirtyTiles = []
    · simp [hd]
    · simp [hd]
  refine ⟨h1, ?_, ?_⟩
  · rw [hempty _ h1]
  · unfold flushDirtyTilesWith
    by_cases hd : ws.dirtyTiles = []
    · simp [hd]
    · simp [hd, processDirtyTiles_filter_failed]

theorem flushTileSends_eq (st : StoreState) (now : Nat) (ws : WSState) (t : String) :
    flushTileSends st now ws t =
      if subsOf ws t = [] then []
      else (subsOf ws t).filterMap (fun cid =>
        if (alookup ws.clients cid).isSome then
          some (cid, OutMsg.vesselUpdate t (vesselsForTile st now t)) else none) := by
  unfold flushTileSends
  by_cases hs : subsOf ws t = []
  · simp [hs]
  · simp only [if_neg hs]
    by_cases hm : smembersTile st now t = []
    · simp [hm, vesselsForTile]
    · simp [hm, vesselsForTile]

theorem filter_flatMap_nil {β : Type} (p : β → Bool) (l : List String) (f : String → List β)
    (h : ∀ t ∈ l, (f t).filter p = []) : (l.flatMap f).filter p = [] := by
  induction l with
  | nil => rfl
  | cons t rest ih =>
    rw [List.flatMap_cons, List.filter_append, h t (List.mem_cons_self _ _),
      ih (fun u hu => h u (List.mem_cons_of_mem _ hu)), List.append_nil]

theorem filter_flatMap_single {β : Type} (p : β → Bool) (l : List String)
    (f : String → List β) (T : String) (hnd : l.Nodup) (hT : T ∈ l)
    (hother : ∀ t ∈ l, t ≠ T → (f t).filter p = []) :
    (l.flatMap f).filter p = (f T).filter p := by
  induction l with
  | nil => cases hT
  | cons t rest ih =>
    rcases List.mem_cons.mp hT with rfl | hT'
    · have hrest : (rest.flatMap f).filter p = [] :=
        filter_flatMap_nil p rest f (fun u hu =>
          hother u (List.mem_cons_of_mem _ hu)
            (fun e => (List.nodup_cons.mp hnd).1 (e ▸ hu)))
      rw [List.flatMap_cons, List.filter_append, hrest, List.append_nil]
    · have ht : t ≠ T := fun e => (List.nodup_cons.mp hnd).1 (e ▸ hT')
      rw [List.flatMap_cons, List.filter_append,
        hother t (List.mem_cons_self _ _) ht, List.nil_append]
      exact ih (List.nodup_cons.mp hnd).2 hT'
        (fun u hu hne => hother u (List.mem_cons_of_mem _ hu) hne)

theorem filterMap_filter_cid (msg : OutMsg) (l : List String) (cid : String)
    (g : String → Bool) (hnd : l.Nodup) (hmem : cid ∈ l) (hg : g cid = true) :
    (l.filterMap (fun c => if g c then some (c, msg) else none)).filter
      (fun p => decide (p.1 = cid)) = [(cid, msg)] := by
  induction l with
  | nil => cases hmem
  | cons c rest ih =>
    rcases List.mem_cons.mp hmem with rfl | hmem'
    · have hnotin : cid ∉ rest := (List.nodup_cons.mp hnd).1
      have hrest : (rest.filterMap (fun c => if g c then some (c, msg) else none)).filter
          (fun p => decide (p.1 = cid)) = [] := by
        rw [List.filter_eq_nil_iff]
        intro p hp
        obtain ⟨c', hc', hfc'⟩ := List.mem_filterMap.mp hp
        by_cases hgc : g c' = true
        · rw [if_pos hgc] at hfc'
          obtain rfl := Option.some.inj hfc'
          simp only [decide_eq_true_eq]
          exact fun e => hnotin (e ▸ hc')
        · rw [if_neg hgc] at hfc'
          exact Option.noConfusion hfc'
      simp only [List.filterMap_cons, hg, if_true, List.filter_cons, decide_eq_true_eq]
      simp [hrest]
    · by_cases hcc : c = cid
      · exact absurd hmem' (hcc ▸ (List.nodup_cons.mp hnd).1)
      · have ih' := ih (List.nodup_cons.mp hnd).2 hmem'
        by_cases hgc : g c = true
        · simp only [List.filterMap_cons, hgc, if_true, List.filter_cons,
            decide_eq_true_eq, hcc, if_false]
          simpa using ih'
        · simp only [List.filterMap_cons, hgc, if_false]
          simpa using ih'

theorem processDirtyTiles_noFail (st : StoreState) (now : Nat) (ws : WSState)
    (ts : List String) :
    processDirtyTiles st now ws (fun _ => false) ts =
      ts.flatMap (flushTileSends st now ws) := by
  induction ts with
  | nil => rfl
  | cons t ts ih =>
    simp only [processDirtyTiles, Bool.false_eq_true, if_false, List.flatMap_cons, ih]

/-- C5: on a flush tick the dirty-tile set is swapped for an empty one; a
subscriber of a drained tile receives exactly one `vessel_update` for it,
carrying the tile's current (possibly empty) vessel list; every emitted
message is a `vessel_update` for some drained tile with a non-empty
subscriber set, addressed to one of its subscribers; and marking the same
tile dirty N > 1 times between ticks leaves a single occurrence, so the tick
still emits exactly one message per subscriber, with the last state. -/
theorem c5_flush_coalesced (st : StoreState) (now : Nat) (ws : WSState) (T cid : String)
    (s : List String)
    (hnd : ws.dirtyTiles.Nodup)
    (hT : T ∈ ws.dirtyTiles)
    (hsubnd : (subsOf ws T).Nodup)
    (hsub : cid ∈ subsOf ws T)
    (hc : alookup ws.clients cid = some s) :
    (flushDirtyTiles st now ws).1.dirtyTiles = [] ∧
    (flushDirtyTiles st now ws).2.filter
        (fun p => decide (p.1 = cid) && isUpdateForTile T p.2) =
      [(cid, OutMsg.vesselUpdate T (vesselsForTile st now T))] ∧
    (∀ p ∈ (flushDirtyTiles st now ws).2, ∃ t vs, t ∈ ws.dirtyTiles ∧
      subsOf ws t ≠ [] ∧ p.1 ∈ subsOf ws t ∧ p.2 = OutMsg.vesselUpdate t vs) ∧
    markDirty (markDirty ws T) T = markDirty ws T := by
  have hne : ws.dirtyTiles ≠ [] := List.ne_nil_of_mem hT
  have hflush : flushDirtyTiles st now ws =
      ({ ws with dirtyTiles := [] }, ws.dirtyTiles.flatMap (flushTileSends st now ws)) := by
    unfold flushDirtyTiles flushDirtyTilesWith
    rw [if_neg hne, processDirtyTiles_noFail]
  refine ⟨by rw [hflush], ?_, ?_, ?_⟩
  · rw [hflush]
    have hsingle := filter_flatMap_single
      (fun p => decide (p.1 = cid) && isUpdateForTile T p.2)
      ws.dirtyTiles (flushTileSends st now ws) T hnd hT ?other
    · rw [hsingle, flushTileSends_eq, if_neg (List.ne_nil_of_mem hsub)]
      have hcongr : ((subsOf ws T).filterMap (fun c =>
          if (alookup ws.clients c).isSome then
            some (c, OutMsg.vesselUpdate T (vesselsForTile st now T)) else none)).filter
            (fun p => decide (p.1 = cid) && isUpdateForTile T p.2) =
          ((subsOf ws T).filterMap (fun c =>
          if (alookup ws.clients c).isSome then
            some (c, OutMsg.vesselUpdate T (vesselsForTile st now T)) else none)).filter
            (fun p => decide (p.1 = cid)) := by
        apply List.filter_congr
        intro p hp
        obtain ⟨c', hc', hfc'⟩ := List.mem_filterMap.mp hp
        by_cases hgc : (alookup ws.clients c').isSome
        · rw [if_pos hgc] at hfc'
          obtain rfl := Option.some.inj hfc'
          simp [isUpdateForTile]
        · rw [if_neg hgc] at hfc'
          exact Option.noConfusion hfc'
      rw [hcongr]
      exact filterMap_filter_cid _ _ _ _ hsubnd hsub (by rw [hc]; rfl)
    · intro t ht htne
      rw [List.filter_eq_nil_iff]
      intro p hp
      have hshape := (mem_flushTileSends st now ws t p hp).2
      simp [hshape, isUpdateForTile, htne]
  · rw [hflush]
    intro p hp
    obtain ⟨t, ht, hp'⟩ := List.mem_flatMap.mp hp
    obtain ⟨h1, h2⟩ := mem_flushTileSends st now ws t p hp'
    exact ⟨t, vesselsForTile st now t, ht, List.ne_nil_of_mem h1, h1, h2⟩
  · have hmem : T ∈ (markDirty ws T).dirtyTiles := by
      simp [markDirty, mem_jsSetAdd]
    cases ws
    simp [markDirty, jsSetAdd] at hmem ⊢
    simp [hmem]

/-- C5 witness: one subscriber, one dirty tile, empty store — the tick
clears the dirty set and emits exactly the one (empty) `vessel_update`. -/
theorem c5_flush_coalesced_witness :
    (flushDirtyTiles emptyStore 0 wsOneSub).1.dirtyTiles = [] ∧
    (flushDirtyTiles emptyStore 0 wsOneSub).2.filter
        (fun p => decide (p.1 = "c1") && isUpdateForTile tileHK p.2) =
      [("c1", OutMsg.vesselUpdate tileHK (vesselsForTile emptyStore 0 tileHK))] ∧
    markDirty (markDirty wsOneSub tileHK) tileHK = markDirty wsOneSub tileHK := by
  have h := c5_flush_coalesced emptyStore 0 wsOneSub tileHK "c1" [tileHK]
    (by decide) (by decide) (by decide) (by decide) (by decide)
  exact ⟨h.1, h.2.1, h.2.2.2⟩

theorem sendInitialTileData_eq (st : StoreState) (now : Nat) (cid : String)
    (tiles : List String) :
    sendInitialTileData st now cid tiles =
      tiles.flatMap (fun t =>
        if smembersTile st now t = [] then []
        else [(cid, OutMsg.vesselUpdate t (vesselsForTile st now t))]) := by
  unfold sendInitialTileData
  refine congrArg (List.flatMap tiles) ?_
  funext t
  by_cases hm : smembersTile st now t = []
  · simp [hm]
  · have hlen : 0 < (smembersTile st now t).length := List.length_pos.mpr hm
    simp [hm, vesselsForTile, hlen]

theorem subscribeStep_clients_self (ws : WSState) (cid t : String) :
    alookup (subscribeStep ws cid t).clients cid =
      some (jsSetAdd ((alookup ws.clients cid).getD []) t) :=
  alookup_aset_self _ _ _

theorem subscribeStep_subsOf_self (ws : WSState) (cid t : String) :
    subsOf (subscribeStep ws cid t) t = jsSetAdd (subsOf ws t) cid := by
  unfold subsOf subscribeStep
  rw [alookup_aset_self]
  rfl

theorem subscribeStep_subsOf_ne (ws : WSState) (cid t u : String) (h : t ≠ u) :
    subsOf (subscribeStep ws cid t) u = subsOf ws u := by
  unfold subsOf subscribeStep
  rw [alookup_aset_ne _ _ _ _ h]

theorem subscribeFold_preserve (cid T : String) :
    ∀ (tiles : List String) (ws : WSState),
      T ∈ (alookup ws.clients cid).getD [] → cid ∈ subsOf ws T →
      T ∈ (alookup ((tiles.foldl (fun w t => subscribeStep w cid t) ws)).clients cid).getD [] ∧
        cid ∈ subsOf (tiles.foldl (fun w t => subscribeStep w cid t) ws) T := by
  intro tiles
  induction tiles with
  | nil => exact fun ws h1 h2 => ⟨h1, h2⟩
  | cons u rest ih =>
    intro ws h1 h2
    refine ih (subscribeStep ws cid u) ?_ ?_
    · rw [subscribeStep_clients_self]
      simpa using (mem_jsSetAdd _ _ _).mpr (Or.inl h1)
    · by_cases hu : u = T
      · subst hu
        rw [subscribeStep_subsOf_self]
        exact (mem_jsSetAdd _ _ _).mpr (Or.inl h2)
      · rw [subscribeStep_subsOf_ne _ _ _ _ hu]
        exact h2

theorem subscribeFold_mem (cid T : String) :
    ∀ (tiles : List String) (ws : WSState), T ∈ tiles →
      T ∈ (alookup ((tiles.foldl (fun w t => subscribeStep w cid t) ws)).clients cid).getD [] ∧
        cid ∈ subsOf (tiles.foldl (fun w t => subscribeStep w cid t) ws) T := by
  intro tiles
  induction tiles with
  | nil => intro ws h; cases h
  | cons u rest ih =>
    intro ws hT
    rcases List.mem_cons.mp hT with rfl | hT'
    · refine subscribeFold_preserve cid T rest (subscribeStep ws cid T) ?_ ?_
      · rw [subscribeStep_clients_self]
        simpa using (mem_jsSetAdd _ _ _).mpr (Or.inr rfl)
      · rw [subscribeStep_subsOf_self]
        exact (mem_jsSetAdd _ _ _).mpr (Or.inr rfl)
    · exact ih (subscribeStep ws cid u) hT'

/-- C6: `handleSubscribe` adds every listed tile to the session's subscribed
set and the session to each tile's subscription index entry; the first
outbound message is the `subscribed` ack; every message of the handler goes
to this session only; and after the ack there is exactly one `vessel_update`
per listed tile with a non-empty tile set — tiles with empty tile sets
produce none (so subscribing on an empty store yields only the ack). -/
theorem c6_subscribe_initial (st : StoreState) (now : Nat) (ws : WSState) (cid : String)
    (tiles : List String) (s0 : List String)
    (_hc : alookup ws.clients cid = some s0)
    (hnd : tiles.Nodup) :
    (∀ t ∈ tiles,
      t ∈ (alookup (handleSubscribe st now ws cid tiles).1.clients cid).getD [] ∧
      cid ∈ subsOf (handleSubscribe st now ws cid tiles).1 t) ∧
    (handleSubscribe st now ws cid tiles).2.head? =
      some (cid, OutMsg.subscribed tiles
        ("Subscribed to " ++ toString tiles.length ++ " tile(s)")) ∧
    (∀ p ∈ (handleSubscribe st now ws cid tiles).2, p.1 = cid) ∧
    (∀ t ∈ tiles,
      (handleSubscribe st now ws cid tiles).2.filter (fun p => isUpdateForTile t p.2) =
        if smembersTile st now t = [] then []
        else [(cid, OutMsg.vesselUpdate t (vesselsForTile st now t))]) := by
  refine ⟨?_, ?_, ?_, ?_⟩
  · intro t ht
    exact subscribeFold_mem cid t tiles ws ht
  · rfl
  · intro p hp
    rcases List.mem_cons.mp hp with rfl | hp'
    · rfl
    · rw [sendInitialTileData_eq] at hp'
      obtain ⟨t, ht, hchunk⟩ := List.mem_flatMap.mp hp'
      by_cases hm : smembersTile st now t = []
      · simp [hm] at hchunk
      · rw [if_neg hm] at hchunk
        rcases List.mem_singleton.mp hchunk with rfl
        rfl
  · intro t ht
    show ((cid, OutMsg.subscribed tiles
          ("Subscribed to " ++ toString tiles.length ++ " tile(s)"))
        :: sendInitialTileData st now cid tiles).filter
        (fun p => isUpdateForTile t p.2) = _
    rw [List.filter_cons, if_neg (by simp [isUpdateForTile]), sendInitialTileData_eq]
    have hsingle := filter_flatMap_single (fun p => isUpdateForTile t p.2) tiles
      (fun u => if smembersTile st now u = [] then []
                else [(cid, OutMsg.vesselUpdate u (vesselsForTile st now u))])
      t hnd ht ?other
    · rw [hsingle]
      dsimp only
      by_cases hm : smembersTile st now t = []
      · simp only [if_pos hm, List.filter_nil]
      · rw [if_neg hm]
        simp [isUpdateForTile]
    · intro u hu hne
      dsimp only
      by_cases hm : smembersTile st now u = []
      · rw [if_pos hm]
        rfl
      · rw [if_neg hm]
        simp [isUpdateForTile, hne]

/-- A freshly connected client with no subscriptions. -/
def wsInit : WSState :=
  { clients := [("c1", [])], tileSubscriptions := [], dirtyTiles := [] }

/-- C6 witness: subscribing to one tile on an empty store updates both
subscription sides, acknowledges first, and sends no `vessel_update`. -/
theorem c6_subscribe_initial_witness :
    (tileHK ∈ (alookup (handleSubscribe emptyStore 0 wsInit "c1" [tileHK]).1.clients
        "c1").getD [] ∧
      "c1" ∈ subsOf (handleSubscribe emptyStore 0 wsInit "c1" [tileHK]).1 tileHK) ∧
    (handleSubscribe emptyStore 0 wsInit "c1" [tileHK]).2.head? =
      some ("c1", OutMsg.subscribed [tileHK]
        ("Subscribed to " ++ toString ([tileHK] : List String).length ++ " tile(s)")) ∧
    (handleSubscribe emptyStore 0 wsInit "c1" [tileHK]).2.filter
        (fun p => isUpdateForTile tileHK p.2) = [] := by
  have h := c6_subscribe_initial emptyStore 0 wsInit "c1" [tileHK] []
    (by decide) (by decide)
  refine ⟨h.1 _ (by decide), h.2.1, ?_⟩
  have h4 := h.2.2.2 tileHK (by decide)
  have hsm : smembersTile emptyStore 0 tileHK = [] := rfl
  simpa [hsm] using h4

/-! ### Subscription-index invariant (C7) -/

/-- The subscription-index invariant: a session id is in `subs[T]` iff `T`
is in that session's subscribed set; index entries are non-empty (evicted
when emptied) and duplicate-free; session tile sets are duplicate-free
(JS Sets cannot hold duplicates). -/
def SubsInvariant (ws : WSState) : Prop :=
  (∀ T c, c ∈ subsOf ws T ↔ ∃ s, alookup ws.clients c = some s ∧ T ∈ s) ∧
  (∀ T e, alookup ws.tileSubscriptions T = some e → e ≠ [] ∧ e.Nodup) ∧
  (∀ c s, alookup ws.clients c = some s → s.Nodup)

theorem subscribeStep_clients_ne (ws : WSState) (cid t c : String) (h : cid ≠ c) :
    alookup (subscribeStep ws cid t).clients c = alookup ws.clients c :=
  alookup_aset_ne _ _ _ _ h

theorem subsOf_nodup (ws : WSState) (hinv : SubsInvariant ws) (T : String) :
    (subsOf ws T).Nodup := by
  unfold subsOf
  rcases he : alookup ws.tileSubscriptions T with _ | e
  · simp
  · simpa using (hinv.2.1 T e he).2

theorem subscribeStep_invariant (ws : WSState) (cid t : String) (s0 : List String)
    (hc : alookup ws.clients cid = some s0) (hinv : SubsInvariant ws) :
    SubsInvariant (subscribeStep ws cid t) := by
  obtain ⟨h1, h2, h3⟩ := hinv
  refine ⟨?_, ?_, ?_⟩
  · intro T c
    by_cases hT : t = T
    · subst hT
      rw [subscribeStep_subsOf_self, mem_jsSetAdd]
      by_cases hcc : c = cid
      · rw [hcc]
        constructor
        · intro _
          exact ⟨jsSetAdd ((alookup ws.clients cid).getD []) t,
            subscribeStep_clients_self ws cid t, (mem_jsSetAdd _ _ _).mpr (Or.inr rfl)⟩
        · intro _
          exact Or.inr rfl
      · have hne : cid ≠ c := fun e => hcc e.symm
        rw [subscribeStep_clients_ne ws cid t c hne]
        constructor
        · rintro (hcs | hrfl)
          · exact (h1 t c).mp hcs
          · exact absurd hrfl hcc
        · intro h
          exact Or.inl ((h1 t c).mpr h)
    · rw [subscribeStep_subsOf_ne ws cid t T hT]
      by_cases hcc : c = cid
      · rw [hcc]
        constructor
        · intro hcs
          obtain ⟨s, hs, hTs⟩ := (h1 T cid).mp hcs
          have hss : s = s0 := by
            rw [hc] at hs
            exact (Option.some.inj hs).symm
          refine ⟨jsSetAdd ((alookup ws.clients cid).getD []) t,
            subscribeStep_clients_self ws cid t,
            (mem_jsSetAdd _ _ _).mpr (Or.inl ?_)⟩
          simpa [hc] using hss ▸ hTs
        · rintro ⟨s, hs, hTs⟩
          rw [subscribeStep_clients_self ws cid t, hc] at hs
          have hss : s = jsSetAdd s0 t := by
            simpa using (Option.some.inj hs).symm
          rw [hss, mem_jsSetAdd] at hTs
          rcases hTs with hTs' | hTT
          · exact (h1 T cid).mpr ⟨s0, hc, hTs'⟩
          · exact absurd hTT.symm hT
      · have hne : cid ≠ c := fun e => hcc e.symm
        rw [subscribeStep_clients_ne ws cid t c hne]
        exact h1 T c
  · intro T e he
    by_cases hT : t = T
    · subst hT
      have : alookup (subscribeStep ws cid t).tileSubscriptions t =
          some (jsSetAdd (subsOf ws t) cid) := alookup_aset_self _ _ _
      rw [this] at he
      obtain rfl := Option.some.inj he
      exact ⟨jsSetAdd_ne_nil _ _, nodup_jsSetAdd _ _ (subsOf_nodup ws ⟨h1, h2, h3⟩ t)⟩
    · have : alookup (subscribeStep ws cid t).tileSubscriptions T =
          alookup ws.tileSubscriptions T := alookup_aset_ne _ _ _ _ hT
      rw [this] at he
      exact h2 T e he
  · intro c s hs
    by_cases hcc : cid = c
    · subst hcc
      rw [subscribeStep_clients_self, hc] at hs
      obtain rfl := Option.some.inj hs
      exact nodup_jsSetAdd _ _ (by simpa using h3 cid s0 hc)
    · rw [subscribeStep_clients_ne ws cid t c hcc] at hs
      exact h3 c s hs

theorem subscribeFold_invariant (cid : String) :
    ∀ (tiles : List String) (ws : WSState),
      (∃ s0, alookup ws.clients cid = some s0) → SubsInvariant ws →
      SubsInvariant (tiles.foldl (fun w t => subscribeStep w cid t) ws) := by
  intro tiles
  induction tiles with
  | nil => exact fun ws _ h => h
  | cons t rest ih =>
    rintro ws ⟨s0, hc⟩ hinv
    exact ih (subscribeStep ws cid t)
      ⟨jsSetAdd ((alookup ws.clients cid).getD []) t, subscribeStep_clients_self ws cid t⟩
      (subscribeStep_invariant ws cid t s0 hc hinv)

theorem removeSubscriber_clients (ws : WSState) (t cid : String) :
    (removeSubscriber ws t cid).clients = ws.clients := by
  unfold removeSubscriber
  repeat first
  | rfl
  | split

theorem removeSubscriber_subs_lookup (ws : WSState) (t cid T : String) :
    alookup (removeSubscriber ws t cid).tileSubscriptions T =
      if t = T then
        match alookup ws.tileSubscriptions t with
        | some e => if e.erase cid = [] then none else some (e.erase cid)
        | none => none
      else alookup ws.tileSubscriptions T := by
  unfold removeSubscriber
  rcases he : alookup ws.tileSubscriptions t with _ | e
  · by_cases hT : t = T
    · subst hT
      simp [he]
    · simp [hT]
  · by_cases herase : e.erase cid = []
    · simp only [he, if_pos herase]
      rw [alookup_aremove]
    · simp only [he, if_neg herase]
      by_cases hT : t = T
      · subst hT
        rw [alookup_aset_self]
        simp [herase]
      · rw [alookup_aset_ne _ _ _ _ hT]
        simp [hT]

theorem foldRemove_clients (cid : String) (l : List String) :
    ∀ ws : WSState,
      ((l.foldl (fun w t => removeSubscriber w t cid) ws)).clients = ws.clients := by
  induction l with
  | nil => intro ws; rfl
  | cons t rest ih =>
    intro ws
    rw [List.foldl_cons, ih, removeSubscriber_clients]

theorem foldRemove_subs_lookup (cid : String) :
    ∀ (l : List String) (ws : WSState) (T : String), l.Nodup →
      alookup ((l.foldl (fun w t => removeSubscriber w t cid) ws)).tileSubscriptions T =
        if T ∈ l then
          match alookup ws.tileSubscriptions T with
          | some e => if e.erase cid = [] then none else some (e.erase cid)
          | none => none
        else alookup ws.tileSubscriptions T := by
  intro l
  induction l with
  | nil =>
    intro ws T _
    simp
  | cons t rest ih =>
    intro ws T hnd
    rw [List.foldl_cons, ih (removeSubscriber ws t cid) T (List.nodup_cons.mp hnd).2,
      removeSubscriber_subs_lookup]
    by_cases hTrest : T ∈ rest
    · have ht : ¬ t = T := fun e => (List.nodup_cons.mp hnd).1 (e ▸ hTrest)
      rw [if_pos hTrest, if_neg ht, if_pos (List.mem_cons.mpr (Or.inr hTrest))]
    · by_cases hTt : t = T
      · subst hTt
        rw [if_neg hTrest, if_pos rfl, if_pos (List.mem_cons_self _ _)]
      · have hnotmem : T ∉ t :: rest := by
          intro hmem
          rcases List.mem_cons.mp hmem with h | h
          · exact hTt h.symm
          · exact hTrest h
        rw [if_neg hTrest, if_neg hTt, if_neg hnotmem]

theorem unsubscribeStep_clients_self (ws : WSState) (cid t : String) :
    alookup (unsubscribeStep ws cid t).clients cid =
      some (((alookup ws.clients cid).getD []).erase t) := by
  unfold unsubscribeStep
  rw [removeSubscriber_clients]
  exact alookup_aset_self _ _ _

theorem unsubscribeStep_clients_ne (ws : WSState) (cid t c : String) (h : cid ≠ c) :
    alookup (unsubscribeStep ws cid t).clients c = alookup ws.clients c := by
  unfold unsubscribeStep
  rw [removeSubscriber_clients]
  exact alookup_aset_ne _ _ _ _ h

theorem unsubscribeStep_subs_lookup (ws : WSState) (cid t T : String) :
    alookup (unsubscribeStep ws cid t).tileSubscriptions T =
      if t = T then
        match alookup ws.tileSubscriptions t with
        | some e => if e.erase cid = [] then none else some (e.erase cid)
        | none => none
      else alookup ws.tileSubscriptions T := by
  unfold unsubscribeStep
  rw [removeSubscriber_subs_lookup]

/-- The effect of removing `cid` on one subscription-index entry. -/
def eraseEntry (cid : String) : Option (List String) → Option (List String)
  | some e => if e.erase cid = [] then none else some (e.erase cid)
  | none => none

theorem mem_eraseEntry_getD (cid c : String) (o : Option (List String))
    (hnd : ∀ e, o = some e → e.Nodup) :
    c ∈ (eraseEntry cid o).getD [] ↔ c ≠ cid ∧ c ∈ o.getD [] := by
  rcases o with _ | e
  · simp [eraseEntry]
  · have hend := hnd e rfl
    by_cases herase : e.erase cid = []
    · simp only [eraseEntry, if_pos herase, Option.getD_none, Option.getD_some]
      constructor
      · intro h
        simp at h
      · rintro ⟨hne, hce⟩
        have : c ∈ e.erase cid := (hend.mem_erase_iff).mpr ⟨hne, hce⟩
        rw [herase] at this
        simp at this
    · simp only [eraseEntry, if_neg herase, Option.getD_some]
      exact hend.mem_erase_iff

theorem unsubscribeStep_subsOf (ws : WSState) (cid t T : String) :
    subsOf (unsubscribeStep ws cid t) T =
      if t = T then (eraseEntry cid (alookup ws.tileSubscriptions t)).getD []
      else subsOf ws T := by
  unfold subsOf
  rw [unsubscribeStep_subs_lookup]
  by_cases hT : t = T
  · simp only [if_pos hT]
    rfl
  · simp only [if_neg hT]

theorem unsubscribeStep_invariant (ws : WSState) (cid t : String) (s0 : List String)
    (hc : alookup ws.clients cid = some s0) (hinv : SubsInvariant ws) :
    SubsInvariant (unsubscribeStep ws cid t) := by
  obtain ⟨h1, h2, h3⟩ := hinv
  have hs0nd : s0.Nodup := h3 cid s0 hc
  have hsubnd : ∀ e, alookup ws.tileSubscriptions t = some e → e.Nodup :=
    fun e he => (h2 t e he).2
  have hclientsD : alookup (unsubscribeStep ws cid t).clients cid = some (s0.erase t) := by
    rw [unsubscribeStep_clients_self, hc]
    rfl
  refine ⟨?_, ?_, ?_⟩
  · intro T c
    rw [unsubscribeStep_subsOf]
    by_cases hT : t = T
    · simp only [if_pos hT]
      subst hT
      rw [mem_eraseEntry_getD cid c _ hsubnd]
      by_cases hcc : c = cid
      · rw [hcc]
        constructor
        · rintro ⟨hne, -⟩
          exact absurd rfl hne
        · rintro ⟨s, hs, hts⟩
          rw [hclientsD] at hs
          obtain rfl : s0.erase t = s := Option.some.inj hs
          exact absurd (hs0nd.mem_erase_iff.mp hts).1 (by simp)
      · have hne : cid ≠ c := fun e => hcc e.symm
        rw [unsubscribeStep_clients_ne ws cid t c hne]
        constructor
        · rintro ⟨-, hcs⟩
          exact (h1 t c).mp hcs
        · intro h
          exact ⟨hcc, (h1 t c).mpr h⟩
    · simp only [if_neg hT]
      by_cases hcc : c = cid
      · rw [hcc]
        constructor
        · intro hcs
          obtain ⟨s, hs, hTs⟩ := (h1 T cid).mp hcs
          have hss : s = s0 := by
            rw [hc] at hs
            exact (Option.some.inj hs).symm
          refine ⟨s0.erase t, hclientsD, ?_⟩
          rw [List.mem_erase_of_ne (fun e => hT e.symm)]
          exact hss ▸ hTs
        · rintro ⟨s, hs, hTs⟩
          rw [hclientsD] at hs
          have hss : s = s0.erase t := (Option.some.inj hs).symm
          rw [hss, List.mem_erase_of_ne (fun e => hT e.symm)] at hTs
          exact (h1 T cid).mpr ⟨s0, hc, hTs⟩
      · have hne : cid ≠ c := fun e => hcc e.symm
        rw [unsubscribeStep_clients_ne ws cid t c hne]
        exact h1 T c
  · intro T e he
    rw [unsubscribeStep_subs_lookup] at he
    by_cases hT : t = T
    · rw [if_pos hT] at he
      subst hT
      rcases hex : alookup ws.tileSubscriptions t with _ | e0
      · rw [hex] at he
        exact Option.noConfusion he
      · simp only [hex] at he
        by_cases herase : e0.erase cid = []
        · rw [if_pos herase] at he
          exact Option.noConfusion he
        · rw [if_neg herase] at he
          have hee : e0.erase cid = e := Option.some.inj he
          subst hee
          exact ⟨herase, (h2 t e0 hex).2.erase cid⟩
    · rw [if_neg hT] at he
      exact h2 T e he
  · intro c s hs
    by_cases hcc : cid = c
    · rw [← hcc, hclientsD] at hs
      have hss : s0.erase t = s := Option.some.inj hs
      subst hss
      exact hs0nd.erase t
    · rw [unsubscribeStep_clients_ne ws cid t c hcc] at hs
      exact h3 c s hs

theorem unsubscribeFold_invariant (cid : String) :
    ∀ (tiles : List String) (ws : WSState),
      (∃ s0, alookup ws.clients cid = some s0) → SubsInvariant ws →
      SubsInvariant (tiles.foldl (fun w t => unsubscribeStep w cid t) ws) := by
  intro tiles
  induction tiles with
  | nil => exact fun ws _ h => h
  | cons t rest ih =>
    rintro ws ⟨s0, hc⟩ hinv
    exact ih (unsubscribeStep ws cid t)
      ⟨((alookup ws.clients cid).getD []).erase t, unsubscribeStep_clients_self ws cid t⟩
      (unsubscribeStep_invariant ws cid t s0 hc hinv)

theorem handleDisconnect_char (ws : WSState) (cid : String) (s0 : List String)
    (hc : alookup ws.clients cid = some s0) (hs0nd : s0.Nodup) :
    (handleDisconnect ws cid).clients = aremove ws.clients cid ∧
    ∀ T, alookup (handleDisconnect ws cid).tileSubscriptions T =
      if T ∈ s0 then eraseEntry cid (alookup ws.tileSubscriptions T)
      else alookup ws.tileSubscriptions T := by
  unfold handleDisconnect
  simp only [hc]
  constructor
  · simp [foldRemove_clients]
  · intro T
    show alookup ((s0.foldl (fun w t => removeSubscriber w t cid) ws)).tileSubscriptions T = _
    rw [foldRemove_subs_lookup cid s0 ws T hs0nd]
    by_cases hT : T ∈ s0
    · simp only [if_pos hT]
      rfl
    · simp only [if_neg hT]

theorem handleDisconnect_invariant (ws : WSState) (cid : String) (s0 : List String)
    (hc : alookup ws.clients cid = some s0) (hinv : SubsInvariant ws) :
    SubsInvariant (handleDisconnect ws cid) ∧
    (∀ T, cid ∉ subsOf (handleDisconnect ws cid) T) ∧
    alookup (handleDisconnect ws cid).clients cid = none := by
  obtain ⟨h1, h2, h3⟩ := hinv
  have hs0nd := h3 cid s0 hc
  obtain ⟨hcl, hsubs⟩ := handleDisconnect_char ws cid s0 hc hs0nd
  have hsubsOf : ∀ T, subsOf (handleDisconnect ws cid) T =
      if T ∈ s0 then (eraseEntry cid (alookup ws.tileSubscriptions T)).getD []
      else subsOf ws T := by
    intro T
    unfold subsOf
    rw [hsubs T]
    by_cases hT : T ∈ s0
    · simp only [if_pos hT]
    · simp only [if_neg hT]
  have hnone : alookup (handleDisconnect ws cid).clients cid = none := by
    rw [hcl, alookup_aremove]
    simp
  have hinvD : SubsInvariant (handleDisconnect ws cid) := by
    refine ⟨?_, ?_, ?_⟩
    · intro T c
      rw [hsubsOf T]
      by_cases hcc : c = cid
      · rw [hcc]
        constructor
        · intro hmem
          exfalso
          by_cases hT : T ∈ s0
          · rw [if_pos hT] at hmem
            exact ((mem_eraseEntry_getD cid cid _ (fun e he => (h2 T e he).2)).mp
              hmem).1 rfl
          · rw [if_neg hT] at hmem
            obtain ⟨s, hs, hTs⟩ := (h1 T cid).mp hmem
            rw [hc] at hs
            obtain rfl : s0 = s := Option.some.inj hs
            exact hT hTs
        · rintro ⟨s, hs, -⟩
          rw [hnone] at hs
          exact Option.noConfusion hs
      · have hne : cid ≠ c := fun e => hcc e.symm
        have hclc : alookup (handleDisconnect ws cid).clients c = alookup ws.clients c := by
          rw [hcl, alookup_aremove, if_neg hne]
        rw [hclc]
        by_cases hT : T ∈ s0
        · rw [if_pos hT, mem_eraseEntry_getD cid c _ (fun e he => (h2 T e he).2)]
          constructor
          · rintro ⟨-, hcs⟩
            exact (h1 T c).mp hcs
          · intro h
            exact ⟨hcc, (h1 T c).mpr h⟩
        · rw [if_neg hT]
          exact h1 T c
    · intro T e he
      rw [hsubs T] at he
      by_cases hT : T ∈ s0
      · rw [if_pos hT] at he
        rcases hex : alookup ws.tileSubscriptions T with _ | e0
        · rw [hex] at he
          exact Option.noConfusion he
        · rw [hex] at he
          simp only [eraseEntry] at he
          by_cases herase : e0.erase cid = []
          · rw [if_pos herase] at he
            exact Option.noConfusion he
          · rw [if_neg herase] at he
            have hee : e0.erase cid = e := Option.some.inj he
            subst hee
            exact ⟨herase, (h2 T e0 hex).2.erase cid⟩
      · rw [if_neg hT] at he
        exact h2 T e he
    · intro c s hs
      by_cases hcc : cid = c
      · rw [← hcc, hnone] at hs
        exact Option.noConfusion hs
      · rw [hcl, alookup_aremove, if_neg hcc] at hs
        exact h3 c s hs
  refine ⟨hinvD, ?_, hnone⟩
  intro T hmem
  obtain ⟨s, hs, -⟩ := (hinvD.1 T cid).mp hmem
  rw [hnone] at hs
  exact Option.noConfusion hs

/-- C7: in every state satisfying the subscription-index invariant
(`sid ∈ subs[T] ⇔ T ∈ session[sid].subscribed`, empty entries evicted), the
invariant is preserved by `handleSubscribe`, `handleUnsubscribe` and
`handleDisconnect` for a connected session, and after a disconnect the
session id is gone from every tile's subscriber set and from the client
map. -/
theorem c7_subscription_index_invariant (st : StoreState) (now : Nat) (ws : WSState)
    (cid : String) (tiles : List String) (s0 : List String)
    (hc : alookup ws.clients cid = some s0) (hinv : SubsInvariant ws) :
    SubsInvariant (handleSubscribe st now ws cid tiles).1 ∧
    SubsInvariant (handleUnsubscribe ws cid tiles).1 ∧
    SubsInvariant (handleDisconnect ws cid) ∧
    (∀ T, cid ∉ subsOf (handleDisconnect ws cid) T) ∧
    alookup (handleDisconnect ws cid).clients cid = none := by
  have hsub := subscribeFold_invariant cid tiles ws ⟨s0, hc⟩ hinv
  have hunsub := unsubscribeFold_invariant cid tiles ws ⟨s0, hc⟩ hinv
  have hdisc := handleDisconnect_invariant ws cid s0 hc hinv
  exact ⟨hsub, hunsub, hdisc.1, hdisc.2.1, hdisc.2.2⟩

theorem subsInvariant_wsInit : SubsInvariant wsInit := by
  refine ⟨?_, ?_, ?_⟩
  · intro T c
    constructor
    · intro h
      simp [subsOf, wsInit, alookup] at h
    · rintro ⟨s, hs, hTs⟩
      by_cases hcc : "c1" = c
      · simp only [wsInit, alookup, if_pos hcc] at hs
        obtain rfl : ([] : List String) = s := Option.some.inj hs
        simp at hTs
      · simp only [wsInit, alookup, if_neg hcc] at hs
        exact Option.noConfusion hs
  · intro T e he
    simp [wsInit, alookup] at he
  · intro c s hs
    by_cases hcc : "c1" = c
    · simp only [wsInit, alookup, if_pos hcc] at hs
      obtain rfl : ([] : List String) = s := Option.some.inj hs
      simp
    · simp only [wsInit, alookup, if_neg hcc] at hs
      exact Option.noConfusion hs

/-- C7 witness: the invariant holds for a fresh one-client state and is
preserved by a subscribe and by the disconnect, which also clears the
client's entry. -/
theorem c7_subscription_index_invariant_witness :
    SubsInvariant (handleSubscribe emptyStore 0 wsInit "c1" [tileHK]).1 ∧
    SubsInvariant (handleUnsubscribe wsInit "c1" [tileHK]).1 ∧
    SubsInvariant (handleDisconnect wsInit "c1") ∧
    alookup (handleDisconnect wsInit "c1").clients "c1" = none := by
  have h := c7_subscription_index_invariant emptyStore 0 wsInit "c1" [tileHK] []
    (by decide) subsInvariant_wsInit
  exact ⟨h.1, h.2.1, h.2.2.1, h.2.2.2.2⟩

/-! ### Reconnect backoff (aisstream-client.ts, C8) -/

/-- The three option fields that drive `scheduleReconnect`. -/
structure ReconnectOptions where
  reconnectDelay : Rat
  maxReconnectDelay : Rat
  reconnectBackoff : Rat
deriving DecidableEq, Repr

/-- The constructor defaults (1000 ms, 30000 ms, 1.5); `initAISStreamClient`
passes neither option, so these are the live values. Every value the backoff
computation ever produces is an exact dyadic rational far below 2^53, so the
JS double arithmetic is exact and `Rat` models it faithfully. -/
def defaultReconnectOptions : ReconnectOptions :=
  { reconnectDelay := 1000, maxReconnectDelay := 30000, reconnectBackoff := 3/2 }

/-- The mutable fields of `AISStreamClient` that the reconnect logic reads. -/
structure ClientState where
  currentReconnectDelay : Rat
  isClosing : Bool
  hasReconnectTimeout : Bool
deriving DecidableEq, Repr

def initialClientState (o : ReconnectOptions) : ClientState :=
  { currentReconnectDelay := o.reconnectDelay, isClosing := false,
    hasReconnectTimeout := false }

/-- Method `scheduleReconnect`: bail out when a timer is pending or the client is
stopping; otherwise schedule the timer with the current delay (returned as
the second component) and advance the delay to
`min(delay · backoff, maxDelay)`. -/
def scheduleReconnect (o : ReconnectOptions) (s : ClientState) :
    ClientState × Option Rat :=
  if s.hasReconnectTimeout || s.isClosing then (s, none)
  else
    ({ s with
        hasReconnectTimeout := true,
        currentReconnectDelay :=
          min (s.currentReconnectDelay * o.reconnectBackoff) o.maxReconnectDelay },
      some s.currentReconnectDelay)

/-- The scheduled timer firing (`this.reconnectTimeout = null` in the
callback before `connect()`). -/
def timerFire (s : ClientState) : ClientState := { s with hasReconnectTimeout := false }

/-- Method `handleOpen` resets the backoff to the configured initial delay. -/
def handleOpen (o : ReconnectOptions) (s : ClientState) : ClientState :=
  { s with currentReconnectDelay := o.reconnectDelay }

/-- Method `stop()`: set `isClosing` and clear any pending reconnect timer. -/
def stopClient (s : ClientState) : ClientState :=
  { s with isClosing := true, hasReconnectTimeout := false }

/-- Method `handleClose`: schedule a reconnect unless the close was intentional. -/
def handleClose (o : ReconnectOptions) (s : ClientState) : ClientState × Option Rat :=
  if s.isClosing then (s, none) else scheduleReconnect o s

/-- Running `n` consecutive failed connection attempts from a fresh client: each
cycle is timer fired → connect → socket closed → `handleClose`. The second
component collects the scheduled delays in order. -/
def failTrace (o : ReconnectOptions) : Nat → ClientState × List Rat
  | 0 => (initialClientState o, [])
  | n+1 =>
    let r := failTrace o n
    let r2 := handleClose o (timerFire r.1)
    (r2.1, r.2 ++ r2.2.toList)

/-- The delay of the (k+1)-th attempt as the state machine computes it. -/
def delaySeq (o : ReconnectOptions) : Nat → Rat
  | 0 => o.reconnectDelay
  | n+1 => min (delaySeq o n * o.reconnectBackoff) o.maxReconnectDelay

theorem failTrace_eq (o : ReconnectOptions) : ∀ n : Nat,
    (failTrace o n).1.currentReconnectDelay = delaySeq o n ∧
    (failTrace o n).1.isClosing = false ∧
    (failTrace o n).2 = (List.range n).map (delaySeq o) := by
  intro n
  induction n with
  | zero => exact ⟨rfl, rfl, rfl⟩
  | succ n ih =>
    obtain ⟨hd, hcl, hl⟩ := ih
    rcases hst : (failTrace o n).1 with ⟨d, cl, ht⟩
    rw [hst] at hd hcl
    have hd' : d = delaySeq o n := hd
    have hcl' : cl = false := hcl
    subst hd'
    subst hcl'
    refine ⟨?_, ?_, ?_⟩ <;>
      simp [failTrace, hst, hl, timerFire, handleClose, scheduleReconnect, delaySeq,
        List.range_succ]

theorem min_mul_min (a b c : Rat) (hb : 1 ≤ b) (hc : 0 ≤ c) :
    min (min a c * b) c = min (a * b) c := by
  rcases le_total a c with h | h
  · rw [min_eq_left h]
  · have hcb : c ≤ c * b := le_mul_of_one_le_right hc hb
    have hab : c ≤ a * b := le_trans h (le_mul_of_one_le_right (le_trans hc h) hb)
    rw [min_eq_right h, min_eq_right hcb, min_eq_right hab]

theorem delaySeq_closed (n : Nat) :
    delaySeq defaultReconnectOptions n = min (1000 * (3/2 : Rat)^n) 30000 := by
  induction n with
  | zero => norm_num [delaySeq, defaultReconnectOptions]
  | succ n ih =>
    show min (delaySeq defaultReconnectOptions n * (3/2 : Rat)) 30000 = _
    rw [ih, min_mul_min _ _ _ (by norm_num) (by norm_num), mul_assoc, ← pow_succ]

/-- C8: with the constructor defaults (initial 1000 ms, backoff 1.5, cap
30000 ms — `initAISStreamClient` overrides none of them), the k-th
consecutive failed attempt (k counted from 0 here) is scheduled after
min(1000 · 1.5^k, 30000) ms; a successful open resets the delay to 1000 ms;
and after an intentional stop neither a close event nor `scheduleReconnect`
schedules anything. -/
theorem c8_reconnect_backoff (n : Nat) (s : ClientState) :
    (failTrace defaultReconnectOptions n).2 =
      (List.range n).map (fun k => min (1000 * (3/2 : Rat)^k) 30000) ∧
    (handleOpen defaultReconnectOptions s).currentReconnectDelay = 1000 ∧
    (handleClose defaultReconnectOptions (stopClient s)).2 = none ∧
    (scheduleReconnect defaultReconnectOptions (stopClient s)).2 = none := by
  refine ⟨?_, rfl, ?_, ?_⟩
  · rw [(failTrace_eq defaultReconnectOptions n).2.2]
    exact List.map_congr_left (fun k _ => delaySeq_closed k)
  · simp [handleClose, stopClient]
  · simp [scheduleReconnect, stopClient]

/-! ### Batch synchronizer SCAN loop (postgres.ts, C9) -/

/-- One Redis SCAN call, abstracted: the cursor is a position in the key
space, `0` both starts and ends a full pass, and a call returns at most
`count` keys. -/
def scanStep (keys : List String) (cursor count : Nat) : Nat × List String :=
  (if keys.length ≤ cursor + count then 0 else cursor + count,
   (keys.drop cursor).take count)

/-- The do/while loop of `syncVessels`: push the scanned keys, break once
`batchSize` keys are collected, and also stop when the cursor returns to
"0". The fuel argument only bounds the recursion; `keys.length + 1` is
always enough. -/
def syncScanLoop (keys : List String) (bs : Nat) :
    List String → Nat → Nat → List String
  | acc, _, 0 => acc
  | acc, cursor, fuel+1 =>
    let next := (scanStep keys cursor bs).1
    let acc2 := acc ++ (scanStep keys cursor bs).2
    if bs ≤ acc2.length then acc2
    else if next = 0 then acc2
    else syncScanLoop keys bs acc2 next fuel

/-- One batch-sync tick's key scan. The cursor is a local variable of
`syncVessels`, re-initialized to "0" on every call: no scan position
survives from one tick to the next. -/
def syncTickKeys (keys : List String) (bs : Nat) : List String :=
  syncScanLoop keys bs [] 0 (keys.length + 1)

theorem syncTickKeys_eq_take (keys : List String) (bs : Nat) :
    syncTickKeys keys bs = keys.take bs := by
  unfold syncTickKeys
  simp only [syncScanLoop, scanStep, List.drop_zero, List.nil_append, Nat.zero_add]
  by_cases h : bs ≤ (keys.take bs).length
  · rw [if_pos h]
  · rw [if_neg h]
    have hmin : (keys.take bs).length = min bs keys.length := List.length_take bs keys
    have hz : keys.length ≤ bs := by
      rw [hmin] at h
      omega
    rw [if_pos hz]
    simp

/-- C9 counterexample: with batch size 2 and three live vessel keys, a tick
scans keys 1 and 2. The service object holds no cursor (the SCAN cursor is a
local variable of `syncVessels` starting at "0" every call), so the next
tick on the unchanged store computes the same list: key 3 is not scanned in
the next tick either, contradicting "the next tick continues from where the
previous one stopped". -/
theorem c9_scan_counterexample :
    syncTickKeys ["cur:vessel:1", "cur:vessel:2", "cur:vessel:3"] 2 =
      ["cur:vessel:1", "cur:vessel:2"] ∧
    "cur:vessel:3" ∉ syncTickKeys ["cur:vessel:1", "cur:vessel:2", "cur:vessel:3"] 2 := by
  constructor <;> decide

/-- C9 amended: each batch-sync tick scans at most BATCH_SYNC_SIZE vessel
keys, but the scan is not incremental: every tick restarts from cursor "0"
and scans exactly the first `batchSize` keys of the key space, so on an
unchanged store with more than `batchSize` live vessels the same prefix is
rescanned every tick and later vessels are never reached. -/
theorem c9_scan_always_restarts (keys : List String) (bs : Nat) :
    syncTickKeys keys bs = keys.take bs ∧ (syncTickKeys keys bs).length ≤ bs := by
  refine ⟨syncTickKeys_eq_take keys bs, ?_⟩
  rw [syncTickKeys_eq_take keys bs]
  exact List.length_take_le bs keys
